import Mathlib

/-
Verification development for the byteps MXNet trace-correlation engine
(byteps/mxnet/__init__.py).  The Python source is shallowly embedded:
Python strings become Lean `String`s manipulated through executable
re-implementations of the Python `str.split` / `in` primitives, the
networkx `DiGraph` becomes an insertion-ordered edge/node list, integer
arithmetic is over `Int`, dictionary state is an insertion-ordered
association list, and every fallible operation (list indexing, `int()`,
`assert`) is `Except String`.
-/

set_option maxRecDepth 4000

deriving instance DecidableEq for Except

/-- Core of the Python `str.split(sep)` on character lists.  `fuel` bounds the
recursion and is instantiated with the length of the scanned list, which is
always sufficient since every step consumes at least one character. -/
def pySplitCore (sep : List Char) : Nat → List Char → List Char → List (List Char)
  | _, [], acc => [acc.reverse]
  | 0, l, acc => [acc.reverse ++ l]
  | fuel + 1, c :: rest, acc =>
    if sep.isPrefixOf (c :: rest) then
      acc.reverse :: pySplitCore sep fuel (List.drop (sep.length - 1) rest) []
    else
      pySplitCore sep fuel rest (c :: acc)

/-- Python `s.split(sep)` for a non-empty separator: non-overlapping,
left-to-right splitting.  Always returns a non-empty list. -/
def pySplit (s sep : String) : List String :=
  if sep.data.isEmpty then [s]
  else (pySplitCore sep.data s.data.length s.data []).map String.mk

/-- Python `sub in s` substring test (for non-empty `sub`), expressed through
the splitting primitive: the separator occurs iff the split has more than one
field. -/
def pyContains (s sub : String) : Bool :=
  (pySplit s sub).length > 1

/-- Python list indexing `l[i]` for a non-negative index: `IndexError` when out
of range. -/
def pyIdx (l : List String) (i : Nat) : Except String String :=
  match l.drop i with
  | [] => .error "IndexError: list index out of range"
  | x :: _ => .ok x

/-- Python list indexing with possibly negative index (used for
`gradient_name_list[para_index]`): a negative index wraps from the end. -/
def pyListGet (l : List String) (i : Int) : Except String String :=
  let j : Int := if i < 0 then i + l.length else i
  if h : 0 ≤ j ∧ j.toNat < l.length then .ok (l.get ⟨j.toNat, h.2⟩)
  else .error "IndexError: list index out of range"

/-- Python `int(s)`: an optional sign followed by at least one decimal digit
(whitespace handling is irrelevant for the inputs produced by the tracer). -/
def pyDigits : List Char → Option Nat
  | [] => none
  | [c] => if c.isDigit then some (c.toNat - '0'.toNat) else none
  | c :: rest =>
    if c.isDigit then
      match pyDigits rest with
      | some n => some ((c.toNat - '0'.toNat) * 10 ^ rest.length + n)
      | none => none
    else none

/-- Python `int(s)` returning `none` on a `ValueError`. -/
def pyInt (s : String) : Option Int :=
  match s.data with
  | '-' :: rest => (pyDigits rest).map (fun n => -(n : Int))
  | l => (pyDigits l).map (fun n => (n : Int))

/-- Python `line[:-1]` (drop the trailing newline when reading the manifest). -/
def pyDropLastChar (s : String) : String :=
  String.mk s.data.dropLast

/-- Directed graph mirroring the networkx `DiGraph` built by `Recorder.gen_dag`:
nodes and edges are kept in insertion order, `ops` records the `op=` node
attribute set by `add_node`. -/
structure NxDiGraph where
  nodes : List String
  edges : List (String × String)
  ops : List (String × String)
deriving DecidableEq

def NxDiGraph.empty : NxDiGraph := ⟨[], [], []⟩

/-- Register a node if absent (networkx does this implicitly on every
`add_edge` endpoint). -/
def NxDiGraph.addNodeName (g : NxDiGraph) (n : String) : NxDiGraph :=
  if n ∈ g.nodes then g else { g with nodes := g.nodes ++ [n] }

/-- Insertion-ordered association update for node attributes. -/
def assocSet : List (String × String) → String → String → List (String × String)
  | [], k, v => [(k, v)]
  | (k0, v0) :: rest, k, v =>
    if k0 = k then (k0, v) :: rest else (k0, v0) :: assocSet rest k v

/-- networkx `add_node(n, op=op)`. -/
def NxDiGraph.addNode (g : NxDiGraph) (n op : String) : NxDiGraph :=
  let g := g.addNodeName n
  { g with ops := assocSet g.ops n op }

/-- networkx `add_edge(u, v)`: registers both endpoints, ignores duplicate
edges. -/
def NxDiGraph.addEdge (g : NxDiGraph) (u v : String) : NxDiGraph :=
  let g := (g.addNodeName u).addNodeName v
  if (u, v) ∈ g.edges then g else { g with edges := g.edges ++ [(u, v)] }

/-- networkx `n in g.nodes`. -/
def NxDiGraph.hasNode (g : NxDiGraph) (n : String) : Bool :=
  g.nodes.contains n

/-- networkx `(u, v) in g.edges`. -/
def NxDiGraph.hasEdge (g : NxDiGraph) (u v : String) : Bool :=
  g.edges.contains (u, v)

/-- networkx `g.in_edges(v)`: predecessor edges in first-insertion order. -/
def NxDiGraph.inEdges (g : NxDiGraph) (v : String) : List (String × String) :=
  g.edges.filter (fun e => e.2 = v)

/-- networkx `g.successors(u)` in insertion order. -/
def NxDiGraph.successors (g : NxDiGraph) (u : String) : List String :=
  (g.edges.filter (fun e => e.1 = u)).map (fun e => e.2)

/-- networkx `g.edges()` iteration order: grouped by source node in node
insertion order, then by edge insertion order. -/
def NxDiGraph.edgeList (g : NxDiGraph) : List (String × String) :=
  (g.nodes.map (fun u => g.edges.filter (fun e => e.1 = u))).flatten

/-- One raw MXNet trace record as consumed by `byteps_collect_computation`:
`ts = none` models a record without a `"ts"` key. -/
structure RawEvent where
  name : String
  ts : Option Int
  dur : Int
  ph : String
  cat : String
  pid : String
deriving DecidableEq

/-- A record that went through the begin/end pairing loop: `ts` is definite,
`ph` has been rewritten to `"X"` and `dur` derived. -/
structure XEvent where
  name : String
  ts : Int
  dur : Int
  ph : String
  cat : String
  pid : String
deriving DecidableEq

/-- An output record of the correlator: `name` rewritten to the graph id,
`args` modeled by its `"name"` entry plus the ordered `input0, input1, ...`
entries. -/
structure OutEvent where
  name : String
  ts : Int
  dur : Int
  ph : String
  cat : String
  pid : String
  argsName : String
  inputs : List String
deriving DecidableEq

/-- First `while` loop of `Recorder.byteps_collect_computation`: a record
without `"ts"` is skipped; a begin record (`ph` `B` or `b`) is paired with the
*immediately following* record of the raw list (asserting equal names) into a
complete (`"X"`) record whose duration is the difference of the two
timestamps; every other record is dropped. -/
def pairTraces : List RawEvent → Except String (List XEvent)
  | [] => .ok []
  | t :: rest =>
    match t.ts with
    | none => pairTraces rest
    | some ts0 =>
      if t.ph = "B" ∨ t.ph = "b" then
        match rest with
        | [] => .error "IndexError: list index out of range"
        | nxt :: rest2 =>
          if t.name = nxt.name then
            match nxt.ts with
            | none => .error "KeyError: ts"
            | some ts1 =>
              match pairTraces rest2 with
              | .error e => .error e
              | .ok tl => .ok (⟨t.name, ts0, ts1 - ts0, "X", t.cat, t.pid⟩ :: tl)
          else .error "AssertionError: trace name equals next trace name"
      else pairTraces rest

/-- Sort key of `sorted(traces, key=lambda x: x["ts"])`. -/
def tsLe (a b : XEvent) : Prop := a.ts ≤ b.ts

instance : DecidableRel tsLe := fun a b => inferInstanceAs (Decidable (a.ts ≤ b.ts))

instance : IsTotal XEvent tsLe := ⟨fun a b => Int.le_total a.ts b.ts⟩

instance : IsTrans XEvent tsLe := ⟨fun _ _ _ h h2 => le_trans h h2⟩

/-- Pairing followed by the stable ascending sort on `ts` (Python `sorted` is
stable, and stable insertion sort produces the same list). -/
def pairPhase (raw : List RawEvent) : Except String (List XEvent) :=
  (pairTraces raw).map (List.insertionSort tsLe)

/-- `_preprocess` of `byteps_collect_computation`: extract an embedded
`name=...;` attribute, then prefix `BW.`/`FW.` stripping the
`_backward` / `_fwd` suffixes. -/
def _preprocess (n : String) : String :=
  let n1 := if pyContains n "name=" then
      ((pySplit ((pySplit n "name=").getD 1 "") ";").headD "")
    else n
  let n2 := if pyContains n1 "_backward" then "BW." ++ (pySplit n1 "_backward").headD ""
    else "FW." ++ n1
  if pyContains n2 "_fwd" then (pySplit n2 "_fwd").headD "" else n2

/-- The fixed `IGNORE_OP` list of bookkeeping operator names. -/
def IGNORE_OP : List String :=
  ["DeleteVariable", "sum", "_plus_scalar",
   "_copyto_GPU2GPU", "broadcast_add",
   "Reshape", "Cast", "_arange", "elemwise_add",
   "_ones", "SyncCopyGPU2CPU", "_mul_scalar"]

/-- `real_last_bw_name` state machine: walk the sorted traces tracking the
forward/backward cycle (`init` to `fw` to `bw`); at the first backward-to-
forward transition return the last backward node seen; return `none` when the
walk never completes a cycle. -/
def realLastBw (dag : NxDiGraph) : List XEvent → String → Option String → Option String
  | [], _, _ => none
  | t :: rest, statue, tmp =>
    let name := _preprocess t.name
    if ¬ dag.hasNode name then realLastBw dag rest statue tmp
    else if statue = "init" ∧ pyContains name "FW" then realLastBw dag rest "fw" tmp
    else if statue = "fw" ∧ pyContains name "BW" then realLastBw dag rest "bw" (some name)
    else if statue = "bw" ∧ pyContains name "BW" then realLastBw dag rest "bw" (some name)
    else if statue = "bw" ∧ pyContains name "FW" then tmp
    else realLastBw dag rest statue tmp

/-- Result of the inner STEP-accumulation loop: the unconsumed suffix of the
trace list, the accumulated `_step_ts` and `_step_dur`. -/
structure ScanResult where
  rest : List XEvent
  stepTs : Option Int
  stepDur : Int
deriving DecidableEq

/-- Inner `while` loop after the real last backward node: skip other pids,
stop (without consuming) at the next graph node, and accumulate the STEP span
over records that are neither in `IGNORE_OP` nor of a non-operator
category. -/
def stepScan (dag : NxDiGraph) (pid : String) : List XEvent → Option Int → Int → ScanResult
  | [], ts, dur => ⟨[], ts, dur⟩
  | t :: rest, ts, dur =>
    if pid ≠ t.pid then stepScan dag pid rest ts dur
    else
      let name := _preprocess t.name
      if dag.hasNode name then ⟨t :: rest, ts, dur⟩
      else if t.name ∈ IGNORE_OP ∨ t.cat ≠ "operator" then stepScan dag pid rest ts dur
      else
        match ts with
        | none => stepScan dag pid rest (some t.ts) (t.ts + t.dur - t.ts)
        | some ts0 => stepScan dag pid rest (some ts0) (t.ts + t.dur - ts0)

/-- Second `while` loop of `byteps_collect_computation`: keep only graph
nodes, fix the canonical pid on the first kept record, attach one `inputN`
argument per incoming graph edge, and after the real last backward node run
`stepScan`, emitting a STEP record only when `_step_ts` was set.  `fuel` is
instantiated with the length of the trace list, which bounds the number of
iterations since every iteration consumes at least one record. -/
def collectLoop (dag : NxDiGraph) (lastBw : Option String) :
    Nat → Option String → List XEvent → List OutEvent
  | 0, _, _ => []
  | _, _, [] => []
  | fuel + 1, pid, t :: rest =>
    let name := _preprocess t.name
    if ¬ dag.hasNode name then collectLoop dag lastBw fuel pid rest
    else if (match pid with | some p => p ≠ t.pid | none => false : Bool) then
      collectLoop dag lastBw fuel pid rest
    else
      let p := pid.getD t.pid
      let innodes := (dag.inEdges name).map (fun e => e.1)
      let ev : OutEvent := ⟨name, t.ts, t.dur, t.ph, t.cat, t.pid, name, innodes⟩
      if some name = lastBw then
        let sc := stepScan dag p rest none 0
        match sc.stepTs with
        | some sts =>
          ev :: ⟨"STEP", sts, sc.stepDur, "X", "operator", p, "STEP", []⟩ ::
            collectLoop dag lastBw fuel (some p) sc.rest
        | none => ev :: collectLoop dag lastBw fuel (some p) sc.rest
      else ev :: collectLoop dag lastBw fuel (some p) rest

/-- `Recorder.byteps_collect_computation`: pair and sort the raw records, find
the real last backward node, then run the collection loop. -/
def byteps_collect_computation (dag : NxDiGraph) (raw : List RawEvent) :
    Except String (List OutEvent) :=
  match pairPhase raw with
  | .error e => .error e
  | .ok traces => .ok (collectLoop dag (realLastBw dag traces "init" none) traces.length none traces)

/-- The `Recorder` state relevant to readiness tracking: `endTrace` is
`self._end_trace`, `idxDict` the insertion-ordered `self.idx_dict`,
`gradientNameList` is `self.gradient_name_list`, `profilerRunning` models the
`profiler.set_state("run")` side effect.  File-system side effects of
`__init__` (directory creation, stale trace removal) are external and not
modeled. -/
structure RecState where
  endTrace : Bool
  startStep : Int
  endStep : Int
  stepCnt : Int
  idxDict : List (Int × Bool)
  gradientNameList : Option (List String)
  profilerRunning : Bool
deriving DecidableEq

/-- `Recorder.__init__` restricted to its readiness-tracking logic:
`traceOn` is `BYTEPS_TRACE_ON == "1"`, `startStep` / `endStep` the parsed
`BYTEPS_TRACE_START_STEP` / `BYTEPS_TRACE_END_STEP`.  With tracing disabled
the constructor returns immediately (before the threshold checks); otherwise
`start_step < 1` and then `end_step <= start_step` raise `ValueError`. -/
def recorderInit (traceOn : Bool) (startStep endStep : Int) : Except String RecState :=
  let base : RecState :=
    ⟨true, startStep, endStep, 0, [], none, false⟩
  if ¬ traceOn then .ok base
  else
    if startStep < 1 then
      .error "BYTEPS_TRACE_START_STEP must be larger than 1"
    else if endStep ≤ startStep then
      .error "BYTEPS_TRACE_END_STEP must be larger than BYTEPS_TRACE_START_STEP"
    else
      .ok { base with endTrace := false, profilerRunning := (0 = startStep - 1) }

/-- Python dictionary assignment `d[i] = b` on the insertion-ordered
association list. -/
def setIdx : List (Int × Bool) → Int → Bool → List (Int × Bool)
  | [], i, b => [(i, b)]
  | (j, v) :: rest, i, b =>
    if j = i then (j, b) :: rest else (j, v) :: setIdx rest i b

/-- `Recorder.scheduler(index, _check_stop)`.  The manifest file
`arg_namesINpara_names.txt` is modeled by the `manifest` argument holding its
lines (with trailing newline, stripped by `line[:-1]` on load).  The
`profiler.set_state` / `profiler.dump` / thread side effects on the finish
transition are external; the state transition itself is `endTrace := true`. -/
def scheduler (s : RecState) (manifest : List String) (index : Int) (checkStop : Bool) :
    Bool × RecState :=
  if s.endTrace then (false, s)
  else
    let s := if (s.idxDict.lookup index).isNone then
        { s with idxDict := s.idxDict ++ [(index, false)] } else s
    if (s.idxDict.lookup index).getD false then
      if s.idxDict.all (fun e => e.2) then (false, { s with endTrace := true })
      else (false, s)
    else
      let s := if checkStop then { s with stepCnt := s.stepCnt + 1 } else s
      let s := if s.stepCnt = s.startStep - 1 then { s with profilerRunning := true } else s
      if s.stepCnt ≥ s.endStep then
        let s := if s.gradientNameList.isNone then
            { s with gradientNameList := some (manifest.map pyDropLastChar) } else s
        (true, s)
      else (false, s)

/-- `Recorder.end4index`: mark a gradient index as emitted. -/
def end4index (s : RecState) (index : Int) : RecState :=
  if s.endTrace then s else { s with idxDict := setIdx s.idxDict index true }

/-- Run a sequence of `scheduler` calls, collecting the returned flags. -/
def runSched (manifest : List String) : RecState → List (Int × Bool) → List Bool × RecState
  | s, [] => ([], s)
  | s, (i, f) :: rest =>
    let r := scheduler s manifest i f
    let rs := runSched manifest r.2 rest
    (r.1 :: rs.1, rs.2)

/-- One record of `comm.json`, with its `args["name"]` entry and the
`args["input0"]` entry added by the merge. -/
structure CommEvent where
  name : String
  ts : Int
  dur : Int
  ph : String
  cat : String
  pid : String
  argsName : String
  input0 : Option String
deriving DecidableEq

/-- Body of the `for trace in rst_traces["traceEvents"]` loop of
`Recorder.byteps_collect_comm` on one record: skip records whose
`args["name"]` does not mention `byteps.gradient_`; otherwise resolve the
index through the manifest list `gl`, rewrite `name`/`pid`/`args`, and attach
the unique communication-graph predecessor as `input0`, asserting there is
exactly one. -/
def collectCommEvent (dag : NxDiGraph) (gl : List String) (e : CommEvent) :
    Except String (Option CommEvent) :=
  if ¬ pyContains e.argsName "byteps.gradient_" then .ok none
  else
    match pyInt ((pySplit e.argsName "_").getLastD "") with
    | none => .error "ValueError: invalid literal for int"
    | some paraIndex =>
      match pyListGet gl paraIndex with
      | .error msg => .error msg
      | .ok paraName =>
        let newName := if e.name ≠ e.argsName then
            "Comm." ++ paraName ++ "." ++ (pySplit e.name ".").getLastD ""
          else "Comm." ++ paraName
        match (dag.inEdges ("Comm." ++ paraName)).map (fun p => p.1) with
        | [u] =>
          .ok (some { e with name := newName, pid := "Comm." ++ paraName,
                             argsName := "Comm." ++ paraName, input0 := some u })
        | _ => .error "AssertionError: len(input_nodes) == 1"

/-- `Recorder.byteps_collect_comm` over the parsed `comm.json` records
(waiting for the file and re-writing `gradient_name_list.txt` are external
side effects). -/
def byteps_collect_comm (dag : NxDiGraph) (gl : List String) :
    List CommEvent → Except String (List CommEvent)
  | [] => .ok []
  | e :: rest =>
    match collectCommEvent dag gl e with
    | .error msg => .error msg
    | .ok r =>
      match byteps_collect_comm dag gl rest with
      | .error msg => .error msg
      | .ok tl =>
        match r with
        | some ev => .ok (ev :: tl)
        | none => .ok tl

/-- Timeout test `wait_cnt * WAIT_TIME > WAIT_TIME_OUT` of
`Recorder.wait_for_trace`, in tenths of a second (`WAIT_TIME = 0.1`,
`WAIT_TIME_OUT = 10`): the comparison `cnt * 0.1 > 10` holds exactly when
`cnt > 100`, both in exact arithmetic and in the binary64 arithmetic of the
source for every count reachable by the loop. -/
def timeoutCond (cnt : Nat) : Bool := 100 < cnt

/-- Rendering of `"%f" % (wait_cnt * 0.1)` for an integral count of tenths. -/
def tenthsStr (cnt : Nat) : String :=
  Nat.repr (cnt / 10) ++ "." ++ Nat.repr (cnt % 10) ++ "00000"

/-- The `ValueError` message of `Recorder.wait_for_trace`. -/
def timeoutMsg (name : String) (cnt : Nat) : String :=
  "Waiting Time Out, wait " ++ name ++ " traces for " ++ tenthsStr cnt ++ " s"

/-- The polling loop of `Recorder.wait_for_trace`: `ready k` is the value of
the readiness predicate at the poll following `k` sleeps.  `remaining` is
instantiated so that the timeout branch always fires before the fuel runs
out. -/
def waitGo (ready : Nat → Bool) (name : String) : Nat → Nat → Except String Nat
  | 0, cnt => .error (timeoutMsg name cnt)
  | remaining + 1, cnt =>
    if ready cnt then .ok cnt
    else if timeoutCond (cnt + 1) then .error (timeoutMsg name (cnt + 1))
    else waitGo ready name remaining (cnt + 1)

/-- `Recorder.wait_for_trace`: poll, sleeping `0.1 s` between polls, until the
predicate holds (returning the number of sleeps) or the cumulative wait
exceeds `10 s`, raising a `ValueError` naming the waited-for stream.  The
fixed poll interval and wall-clock delay are modeled by the poll counter. -/
def wait_for_trace (ready : Nat → Bool) (name : String) : Except String Nat :=
  waitGo ready name 101 0

/-- The `for i in range(len(first_ls))` loop of `Recorder.gen_dag` over the
first block: stop at the first `Variable:` line; each `output[` line links
`FW.<output> -> OUTPUT<k> -> BW.<output>` in declaration order. -/
def scanOutputs (g : NxDiGraph) (cnt : Nat) : List String → Except String NxDiGraph
  | [] => .ok g
  | l :: rest =>
    if pyContains l "Variable:" then .ok g
    else if pyContains l "output[" then
      match pyIdx (pySplit l "]=") 1 with
      | .error msg => .error msg
      | .ok seg =>
        let outputNode := (pySplit seg "(").headD ""
        let outputNode := if pyContains outputNode "_fwd" then
            (pySplit outputNode "_fwd").headD "" else outputNode
        let g := (g.addEdge ("FW." ++ outputNode) ("OUTPUT" ++ Nat.repr cnt)).addEdge
            ("OUTPUT" ++ Nat.repr cnt) ("BW." ++ outputNode)
        scanOutputs g (cnt + 1) rest
    else scanOutputs g cnt rest

/-- `var` collection of `Recorder.gen_dag`: every line of the previous block
containing `Variable` contributes `l.split("Variable:")[1]`. -/
def collectVars : List String → Except String (List String)
  | [] => .ok []
  | l :: rest =>
    if pyContains l "Variable" then
      match pyIdx (pySplit l "Variable:") 1 with
      | .error msg => .error msg
      | .ok v =>
        match collectVars rest with
        | .error msg => .error msg
        | .ok acc => .ok (v :: acc)
    else collectVars rest

/-- `args` collection of `Recorder.gen_dag`: every line containing `arg[`
contributes `l.split("]=")[1].split("(")[0]` unless it names a declared free
variable. -/
def collectArgs (var : List String) : List String → Except String (List String)
  | [] => .ok []
  | l :: rest =>
    if pyContains l "arg[" then
      match pyIdx (pySplit l "]=") 1 with
      | .error msg => .error msg
      | .ok seg =>
        let argName := (pySplit seg "(").headD ""
        match collectArgs var rest with
        | .error msg => .error msg
        | .ok acc =>
          if argName ∈ var then .ok acc else .ok (argName :: acc)
    else collectArgs var rest

/-- Edge contribution of one argument of an operator block: the producer edge
`FW.<arg> -> FW.<name>` and the mirrored backward edge
`BW.<name> -> BW.<arg>`, with the forward suffix stripped from the argument
name. -/
def argStep (name : String) (d : NxDiGraph) (innode0 : String) : NxDiGraph :=
  let innode := if pyContains innode0 "_fwd" then (pySplit innode0 "_fwd").headD "" else innode0
  (d.addEdge ("FW." ++ innode) ("FW." ++ name)).addEdge ("BW." ++ name) ("BW." ++ innode)

/-- Edge contribution of one free variable of an operator block: data inputs
link from `I/O` (and, in the main graph, through the STEP boundary); other
free variables are communication-tracked quantities. -/
def varStep (isMain : Bool) (name : String) (d : NxDiGraph) (v : String) : NxDiGraph :=
  if pyContains v "data" then
    let d2 := d.addEdge "I/O" ("FW." ++ name)
    if isMain then
      (d2.addEdge ("BW." ++ name) "STEP").addEdge "STEP" ("FW." ++ name)
    else d2
  else
    (d.addEdge ("Comm." ++ v) "STEP").addEdge ("BW." ++ name) ("Comm." ++ v)

/-- Graph contribution of one operator block of `Recorder.gen_dag`: the
forward/backward node pair, the mirrored producer edges for each argument,
and per free variable either the `I/O` (and, for the main graph, the STEP
boundary) edges for data inputs or the communication edges. -/
def processBlock (isMain : Bool) (g : NxDiGraph) (prevBlock block : String) :
    Except String NxDiGraph :=
  match collectVars (pySplit prevBlock "\n") with
  | .error msg => .error msg
  | .ok var =>
    let ls := pySplit block "\n"
    let l0 := ls.headD ""
    if ¬ pyContains l0 "Name" then .ok g
    else
      match pyIdx (pySplit l0 "Name=") 1 with
      | .error msg => .error msg
      | .ok name0 =>
        match pyIdx (pySplit ((pySplit l0 ",").headD "") "Op:") 1 with
        | .error msg => .error msg
        | .ok op =>
          match collectArgs var ls with
          | .error msg => .error msg
          | .ok args =>
            let name := if pyContains name0 "_fwd" then (pySplit name0 "_fwd").headD ""
              else name0
            let g := (g.addNode ("FW." ++ name) op).addNode ("BW." ++ name) op
            let g := args.foldl (argStep name) g
            let g := var.foldl (varStep isMain name) g
            .ok g

/-- The `for i in range(1, len(blocks))` loop: each block is processed with
its predecessor (which holds the free-variable declarations). -/
def genDagBlocks (isMain : Bool) : NxDiGraph → String → List String → Except String NxDiGraph
  | g, _, [] => .ok g
  | g, prev, b :: rest =>
    match processBlock isMain g prev b with
    | .error msg => .error msg
    | .ok g2 => genDagBlocks isMain g2 b rest

/-- `Recorder.gen_dag`: split the debug dump on the delimiter line, link the
declared outputs from the first block, then process every subsequent block
(writing the dump copy to disk is an external side effect). -/
def gen_dag (s : String) (isMain : Bool) : Except String NxDiGraph :=
  let blocks := pySplit s "--------------------\n"
  let first := blocks.headD ""
  match scanOutputs NxDiGraph.empty 0 (pySplit first "\n") with
  | .error msg => .error msg
  | .ok g => genDagBlocks isMain g first blocks.tail

/-- Splice one loss sub-graph into the main graph
(`Recorder.combine_loss_dag`, one iteration): edges from the synthetic `I/O`
marker re-attach to the output-producing node and the first backward
successor; edges touching an `OUTPUT` marker re-attach to the main-graph
output node; all other edges are copied verbatim. -/
def combineOne (g : NxDiGraph) (idx : Nat) (ld : NxDiGraph) : Except String NxDiGraph :=
  let outputName := "OUTPUT" ++ Nat.repr idx
  match (g.inEdges outputName).map (fun p => p.1) with
  | [] => .error "IndexError: list index out of range"
  | outputNode :: _ =>
    match g.successors outputName with
    | [] => .error "IndexError: list index out of range"
    | firstBwNode :: _ =>
      ld.edgeList.foldlM (fun d uv =>
        if pyContains uv.1 "I/O" then
          match pyIdx (pySplit uv.2 "FW.") 1 with
          | .error msg => .error msg
          | .ok seg => .ok (((d.addEdge outputNode uv.2).addEdge ("BW." ++ seg) firstBwNode))
        else if pyContains uv.1 "OUTPUT" then .ok (d.addEdge outputName uv.2)
        else if pyContains uv.2 "OUTPUT" then .ok (d.addEdge uv.1 outputName)
        else .ok (d.addEdge uv.1 uv.2)) g

/-- `Recorder.combine_loss_dag`: splice every non-`None` loss sub-graph, in
index order, into the main graph. -/
def combine_loss_dag (g : NxDiGraph) (lossDags : List (Option NxDiGraph)) :
    Except String NxDiGraph :=
  (lossDags.enum).foldlM (fun d p =>
    match p.2 with
    | none => .ok d
    | some ld => combineOne d p.1 ld) g

/-- Modelled from the spec (reference definition, for comparison with
`pairTraces`): push a begin record onto the queue of its process id. -/
def fifoPush (st : List (String × List RawEvent)) (pid : String) (e : RawEvent) :
    List (String × List RawEvent) :=
  match st with
  | [] => [(pid, [e])]
  | (p, q) :: rest =>
    if p = pid then (p, q ++ [e]) :: rest else (p, q) :: fifoPush rest pid e

/-- Modelled from the spec: pop the oldest pending begin record of a process
id, if any. -/
def fifoPop (st : List (String × List RawEvent)) (pid : String) :
    Option RawEvent × List (String × List RawEvent) :=
  match st with
  | [] => (none, [])
  | (p, q) :: rest =>
    if p = pid then
      match q with
      | [] => (none, (p, q) :: rest)
      | b :: q2 => (some b, (p, q2) :: rest)
    else
      let r := fifoPop rest pid
      (r.1, (p, q) :: r.2)

/-- Modelled from the spec: one step of the pairing described in the spec,
which matches a begin record to an end record in strict FIFO order *within the
substream of its process id*, dropping records without a timestamp. -/
def fifoStep (acc : List (String × List RawEvent) × List XEvent) (e : RawEvent) :
    List (String × List RawEvent) × List XEvent :=
  match e.ts with
  | none => acc
  | some t =>
    if e.ph = "B" ∨ e.ph = "b" then (fifoPush acc.1 e.pid e, acc.2)
    else if e.ph = "E" ∨ e.ph = "e" then
      match fifoPop acc.1 e.pid with
      | (some b, st2) =>
        (st2, acc.2 ++ [⟨b.name, b.ts.getD 0, t - b.ts.getD 0, "X", b.cat, b.pid⟩])
      | (none, st2) => (st2, acc.2)
    else acc

/-- Modelled from the spec: pairing by strict FIFO order within each process
id substream, followed by the ascending sort on timestamps. -/
def specFIFOPairing (l : List RawEvent) : List XEvent :=
  List.insertionSort tsLe (l.foldl fifoStep ([], [])).2

/-- Debug dump of the two-operator scenario: operator `A` (op `Dense`, no
non-variable inputs, free variable `data`) and operator `B` (op `Relu`, one
input `A`). -/
def dumpAB : String :=
  "Symbol Outputs:\n\toutput[0]=B(0)\nVariable:data\n--------------------\nOp:Dense, Name=A\nInputs:\n\targ[0]=data(0)\n--------------------\nOp:Relu, Name=B\nInputs:\n\targ[0]=A(0)\n"

/-- The main graph built from `dumpAB` (total by construction; the fallback is
never reached). -/
def dagAB : NxDiGraph :=
  match gen_dag dumpAB true with
  | .ok g => g
  | .error _ => NxDiGraph.empty

/-- Loss debug dump containing a dead operator `M` (not an output, consumed by
nobody, with the non-data free variable `w`) next to the loss head `L`. -/
def lossDumpM : String :=
  "Symbol Outputs:\n\toutput[0]=L(0)\nVariable:w\n--------------------\nOp:Foo, Name=M\n--------------------\nOp:SomeLoss, Name=L\nInputs:\n\targ[0]=x0(0)\n"

/-- The loss sub-graph built from `lossDumpM`. -/
def lossDagM : NxDiGraph :=
  match gen_dag lossDumpM false with
  | .ok g => g
  | .error _ => NxDiGraph.empty

/-- Raw interleaved compute stream refuting per-process-id FIFO pairing: the
begin on `p1` is immediately followed by a begin of the same operator name on
`p2`. -/
def exRawC1 : List RawEvent :=
  [⟨"A", some 100, 0, "B", "operator", "p1"⟩,
   ⟨"A", some 110, 0, "B", "operator", "p2"⟩,
   ⟨"A", some 150, 0, "E", "operator", "p2"⟩,
   ⟨"A", some 200, 0, "E", "operator", "p1"⟩]

/-- Raw compute stream for the STEP-synthesis scenario: one forward/backward/
forward cycle over operator `A` of `dagAB`, with no gap operator at all
between the last backward node and the next forward node. -/
def exRawC2 : List RawEvent :=
  [⟨"A", some 100, 0, "B", "operator", "p"⟩,
   ⟨"A", some 110, 0, "E", "operator", "p"⟩,
   ⟨"A_backward", some 120, 0, "B", "operator", "p"⟩,
   ⟨"A_backward", some 130, 0, "E", "operator", "p"⟩,
   ⟨"A", some 200, 0, "B", "operator", "p"⟩,
   ⟨"A", some 210, 0, "E", "operator", "p"⟩]

/-- A record qualifies as a STEP gap operator in `stepScan` when it is not on
the ignore list, is of the `operator` category, and its normalized name is not
a graph node. -/
def qualifiesGap (dag : NxDiGraph) (t : XEvent) : Bool :=
  !(IGNORE_OP.contains t.name) && (t.cat == "operator") && !(dag.hasNode (_preprocess t.name))

/-- Symmetry invariant of the dependency graph: a forward node for `x` exists
exactly when the backward node for `x` does. -/
def FWBWSymm (g : NxDiGraph) : Prop :=
  ∀ x : String, ("FW." ++ x) ∈ g.nodes ↔ ("BW." ++ x) ∈ g.nodes

/-- Node ids that are neither forward (`FW.`) nor backward (`BW.`) ids. -/
def NotFWBW (u : String) : Prop :=
  ∀ x : String, u ≠ "FW." ++ x ∧ u ≠ "BW." ++ x

/-- C7: for the dump defining operator `A` (op `Dense`, free variable `data`)
and operator `B` (op `Relu`, input `A`), the main-graph builder produces the
edges `I/O -> FW.A`, `FW.A -> FW.B`, `BW.B -> BW.A`, `BW.A -> STEP`, and
`STEP -> FW.A`. -/
theorem C7_gen_dag_scenario :
    (gen_dag dumpAB true).map (fun g =>
      g.hasEdge "I/O" "FW.A" && g.hasEdge "FW.A" "FW.B" && g.hasEdge "BW.B" "BW.A" &&
      g.hasEdge "BW.A" "STEP" && g.hasEdge "STEP" "FW.A") = .ok true := by
  decide

/-- C1 counterexample: on an interleaved two-pid stream the code pairs the
`p1` begin with the immediately following `p2` begin of the same operator
name (duration 10), whereas pairing in strict FIFO order within each process
id substream would produce the two events with durations 100 and 40. -/
theorem C1_counterexample :
    pairPhase exRawC1 ≠ Except.ok (specFIFOPairing exRawC1) := by
  decide

/-- C1 (amended): the pairing loop drops records lacking a timestamp, pairs a
begin record with the *immediately following* record of the raw list
regardless of process id (duration is that records timestamp minus the begin
timestamp), and the resulting complete events are sorted by timestamp
ascending. -/
theorem C1_pairing_amended :
    (∀ (t : RawEvent) rest, t.ts = none → pairTraces (t :: rest) = pairTraces rest) ∧
    (∀ (t nxt : RawEvent) rest ts0 ts1, t.ts = some ts0 → nxt.ts = some ts1 →
      (t.ph = "B" ∨ t.ph = "b") → t.name = nxt.name →
      pairTraces (t :: nxt :: rest) =
        (pairTraces rest).map
          (fun tl => (⟨t.name, ts0, ts1 - ts0, "X", t.cat, t.pid⟩ : XEvent) :: tl)) ∧
    (∀ raw l, pairPhase raw = .ok l → List.Sorted tsLe l) := by
  refine ⟨?_, ?_, ?_⟩
  · intro t rest h
    simp only [pairTraces, h]
  · intro t nxt rest ts0 ts1 h1 h2 hph hname
    simp only [pairTraces, h1, h2, if_pos hph, if_pos hname]
    cases hr : pairTraces rest <;> simp [Except.map, hr]
  · intro raw l h
    unfold pairPhase at h
    cases hp : pairTraces raw with
    | error e => rw [hp] at h; cases h
    | ok l0 =>
      rw [hp] at h
      cases h
      exact List.sorted_insertionSort tsLe l0

/-- C1 witness: the amended pairing equation applied to a concrete begin
record on `p1` immediately followed by an end record on `p2`. -/
theorem C1_pairing_amended_witness :
    pairTraces [⟨"A", some 100, 0, "B", "operator", "p1"⟩,
                ⟨"A", some 150, 0, "E", "operator", "p2"⟩] =
      (pairTraces []).map
        (fun tl => (⟨"A", 100, 50, "X", "operator", "p1"⟩ : XEvent) :: tl) :=
  C1_pairing_amended.2.1 ⟨"A", some 100, 0, "B", "operator", "p1"⟩
    ⟨"A", some 150, 0, "E", "operator", "p2"⟩ [] 100 150 rfl rfl (Or.inl rfl) rfl

/-- C2 counterexample: in the forward/backward/forward stream `exRawC2` over
`dagAB`, the event of the real last backward node `BW.A` is emitted and no
qualifying gap operator occurs before the next graph-matching event, yet the
output contains no STEP event at all (rather than a zero-duration one). -/
theorem C2_counterexample :
    (byteps_collect_computation dagAB exRawC2).map
      (fun l => ((l.filter (fun e => e.name == "STEP")).length, l.map (fun e => e.name))) =
      .ok (0, ["FW.A", "BW.A", "FW.A"]) := by
  decide

/-- If no record of the scanned list qualifies as a gap operator, the inner
STEP loop never sets `_step_ts`. -/
theorem stepScan_stepTs_none (dag : NxDiGraph) (pid : String) :
    ∀ l : List XEvent, (∀ t ∈ l, qualifiesGap dag t = false) →
      (stepScan dag pid l none 0).stepTs = none := by
  have key : ∀ l : List XEvent, ∀ dur : Int, (∀ t ∈ l, qualifiesGap dag t = false) →
      (stepScan dag pid l none dur).stepTs = none := by
    intro l
    induction l with
    | nil => intro dur h; rfl
    | cons t rest ih =>
      intro dur h
      have ht := h t (List.mem_cons_self t rest)
      have hrest : ∀ u ∈ rest, qualifiesGap dag u = false :=
        fun u hu => h u (List.mem_cons_of_mem t hu)
      simp only [stepScan]
      by_cases hpid : pid ≠ t.pid
      · rw [if_pos hpid]; exact ih dur hrest
      · rw [if_neg hpid]
        by_cases hnode : dag.hasNode (_preprocess t.name)
        · rw [if_pos hnode]
        · rw [if_neg hnode]
          by_cases hskip : t.name ∈ IGNORE_OP ∨ t.cat ≠ "operator"
          · rw [if_pos hskip]; exact ih dur hrest
          · exfalso
            push_neg at hskip
            have : qualifiesGap dag t = true := by
              simp [qualifiesGap, hskip.1, hskip.2, hnode]
            rw [ht] at this
            cases this
  intro l h
  exact key l 0 h

/-- The unconsumed suffix returned by the inner STEP loop consists of records
of the scanned list. -/
theorem stepScan_rest_subset (dag : NxDiGraph) (pid : String) :
    ∀ (l : List XEvent) (ts : Option Int) (dur : Int),
      ∀ t ∈ (stepScan dag pid l ts dur).rest, t ∈ l := by
  intro l
  induction l with
  | nil => intro ts dur t ht; exact ht
  | cons u rest ih =>
    intro ts dur t ht
    simp only [stepScan] at ht
    by_cases hpid : pid ≠ u.pid
    · rw [if_pos hpid] at ht
      exact List.mem_cons_of_mem u (ih ts dur t ht)
    · rw [if_neg hpid] at ht
      by_cases hnode : dag.hasNode (_preprocess u.name)
      · rw [if_pos hnode] at ht
        exact ht
      · rw [if_neg hnode] at ht
        by_cases hskip : u.name ∈ IGNORE_OP ∨ u.cat ≠ "operator"
        · rw [if_pos hskip] at ht
          exact List.mem_cons_of_mem u (ih ts dur t ht)
        · rw [if_neg hskip] at ht
          cases ts with
          | none => exact List.mem_cons_of_mem u (ih _ _ t ht)
          | some ts0 => exact List.mem_cons_of_mem u (ih _ _ t ht)

/-- C2 (amended): when no record of the trace list qualifies as a STEP gap
operator, the collection loop emits only events derived from input records
(name rewritten by `_preprocess`); in particular no synthetic STEP event is
added, instead of a zero-duration one. -/
theorem C2_step_amended (dag : NxDiGraph) (lastBw : Option String) :
    ∀ (fuel : Nat) (pid : Option String) (l : List XEvent),
      (∀ t ∈ l, qualifiesGap dag t = false) →
      ∀ e ∈ collectLoop dag lastBw fuel pid l, ∃ t, t ∈ l ∧ e.name = _preprocess t.name := by
  intro fuel
  induction fuel with
  | zero =>
    intro pid l _ e he
    simp only [collectLoop] at he
    cases he
  | succ fuel ih =>
    intro pid l hq e he
    cases l with
    | nil =>
      simp only [collectLoop] at he
      cases he
    | cons t rest =>
      have hrest : ∀ u ∈ rest, qualifiesGap dag u = false :=
        fun u hu => hq u (List.mem_cons_of_mem t hu)
      have hscanmem : ∀ u ∈ (stepScan dag (pid.getD t.pid) rest none 0).rest, u ∈ rest :=
        stepScan_rest_subset dag (pid.getD t.pid) rest none 0
      simp only [collectLoop] at he
      split at he
      · obtain ⟨u, hu, hname⟩ := ih pid rest hrest e he
        exact ⟨u, List.mem_cons_of_mem t hu, hname⟩
      · split at he
        · obtain ⟨u, hu, hname⟩ := ih pid rest hrest e he
          exact ⟨u, List.mem_cons_of_mem t hu, hname⟩
        · split at he
          · have hts : (stepScan dag (pid.getD t.pid) rest none 0).stepTs = none :=
              stepScan_stepTs_none dag (pid.getD t.pid) rest hrest
            split at he
            · rename_i heq
              rw [hts] at heq
              cases heq
            · rcases List.mem_cons.mp he with he | he
              · exact ⟨t, List.mem_cons_self t rest, by rw [he]⟩
              · obtain ⟨u, hu, hname⟩ := ih _ _
                  (fun u hu => hrest u (hscanmem u hu)) e he
                exact ⟨u, List.mem_cons_of_mem t (hscanmem u hu), hname⟩
          · rcases List.mem_cons.mp he with he | he
            · exact ⟨t, List.mem_cons_self t rest, by rw [he]⟩
            · obtain ⟨u, hu, hname⟩ := ih _ rest hrest e he
              exact ⟨u, List.mem_cons_of_mem t hu, hname⟩

/-- C2 witness: the amended theorem applied to the paired, sorted records of
`exRawC2` over `dagAB`, whose records all normalize to graph nodes and hence
never qualify as gap operators. -/
theorem C2_step_amended_witness :
    (∀ t ∈ [(⟨"A", 100, 10, "X", "operator", "p"⟩ : XEvent),
            ⟨"A_backward", 120, 10, "X", "operator", "p"⟩,
            ⟨"A", 200, 10, "X", "operator", "p"⟩], qualifiesGap dagAB t = false) ∧
    (∀ e ∈ collectLoop dagAB (some "BW.A") 3 none
        [(⟨"A", 100, 10, "X", "operator", "p"⟩ : XEvent),
         ⟨"A_backward", 120, 10, "X", "operator", "p"⟩,
         ⟨"A", 200, 10, "X", "operator", "p"⟩],
      ∃ t, t ∈ [(⟨"A", 100, 10, "X", "operator", "p"⟩ : XEvent),
                ⟨"A_backward", 120, 10, "X", "operator", "p"⟩,
                ⟨"A", 200, 10, "X", "operator", "p"⟩] ∧ e.name = _preprocess t.name) :=
  ⟨by decide, C2_step_amended dagAB (some "BW.A") 3 none _ (by decide)⟩

/-- C3 counterexample: with tracing disabled the constructor returns before
the threshold checks, so an end step (3) not greater than the start step (5)
does not raise. -/
theorem C3_counterexample : (recorderInit false 5 3).isOk = true := by
  decide

/-- C3 (amended): when tracing is enabled, construction fails exactly on the
claimed threshold violations: start step below 1 or end step not greater than
the start step raise, and otherwise construction succeeds. -/
theorem C3_thresholds_amended (startStep endStep : Int) :
    ((startStep < 1 ∨ endStep ≤ startStep) →
      (recorderInit true startStep endStep).isOk = false) ∧
    (1 ≤ startStep → startStep < endStep →
      (recorderInit true startStep endStep).isOk = true) := by
  constructor
  · intro h
    rcases h with h | h
    · simp [recorderInit, h, Except.isOk, Except.toBool]
    · by_cases h1 : startStep < 1 <;>
        simp [recorderInit, h, h1, Except.isOk, Except.toBool]
  · intro h1 h2
    simp [recorderInit, not_lt.mpr h1, not_le.mpr h2, Except.isOk, Except.toBool]

/-- C3 witness: the amended theorem applied at the violating configuration
(start 5, end 3) and at the valid configuration (start 1, end 2). -/
theorem C3_thresholds_amended_witness :
    (recorderInit true 5 3).isOk = false ∧ (recorderInit true 1 2).isOk = true :=
  ⟨(C3_thresholds_amended 5 3).1 (Or.inr (by decide)),
   (C3_thresholds_amended 1 2).2 (by decide) (by decide)⟩

/-- Once `_end_trace` is set, a single `scheduler` call returns `False` and
leaves the state untouched. -/
theorem scheduler_finished (s : RecState) (manifest : List String) (i : Int) (f : Bool)
    (h : s.endTrace = true) : scheduler s manifest i f = (false, s) := by
  simp [scheduler, h]

/-- C4: a call on an already-emitted index with every registered index
emitted flips the tracker to the terminal finished state while returning "do
not emit"; and from the finished state every sequence of subsequent calls
returns only "do not emit" and never leaves the finished state (so the
transition can fire at most once). -/
theorem C4_finished_idempotent :
    (∀ (s : RecState) (manifest : List String) (i : Int) (f : Bool),
      s.endTrace = false → s.idxDict.lookup i = some true →
      s.idxDict.all (fun e => e.2) = true →
      scheduler s manifest i f = (false, { s with endTrace := true })) ∧
    (∀ (manifest : List String) (s : RecState), s.endTrace = true →
      ∀ calls : List (Int × Bool),
        (runSched manifest s calls).1 = List.replicate calls.length false ∧
        (runSched manifest s calls).2 = s) := by
  constructor
  · intro s manifest i f hend hlook hall
    simp [scheduler, hend, hlook, hall]
  · intro manifest s hend calls
    induction calls with
    | nil => exact ⟨rfl, rfl⟩
    | cons c rest ih =>
      obtain ⟨i, f⟩ := c
      simp only [runSched, scheduler_finished s manifest i f hend]
      exact ⟨by simp [ih.1, List.replicate], ih.2⟩

/-- C4 witness: the transition fired on the fully-emitted tracker, then two
further calls (unknown index, step-advancing index) both return "do not
emit" and leave the tracker finished. -/
theorem C4_finished_idempotent_witness :
    scheduler ⟨false, 1, 2, 5, [(0, true)], none, false⟩ [] 0 false =
      (false, ⟨true, 1, 2, 5, [(0, true)], none, false⟩) ∧
    (runSched [] ⟨true, 1, 2, 5, [(0, true)], none, false⟩ [(1, true), (0, false)]).1 =
      List.replicate 2 false ∧
    (runSched [] ⟨true, 1, 2, 5, [(0, true)], none, false⟩ [(1, true), (0, false)]).2 =
      ⟨true, 1, 2, 5, [(0, true)], none, false⟩ :=
  ⟨C4_finished_idempotent.1 ⟨false, 1, 2, 5, [(0, true)], none, false⟩ [] 0 false rfl
      (by decide) (by decide),
   (C4_finished_idempotent.2 [] ⟨true, 1, 2, 5, [(0, true)], none, false⟩ rfl
      [(1, true), (0, false)]).1,
   (C4_finished_idempotent.2 [] ⟨true, 1, 2, 5, [(0, true)], none, false⟩ rfl
      [(1, true), (0, false)]).2⟩

/-- Looking up a key freshly appended to an association list that did not
contain it. -/
theorem lookup_append_self (d : List (Int × Bool)) (i : Int) (x : Bool)
    (h : d.lookup i = none) : (d ++ [(i, x)]).lookup i = some x := by
  induction d with
  | nil => simp [List.lookup]
  | cons a rest ih =>
    obtain ⟨k, b⟩ := a
    simp only [List.lookup, List.cons_append] at h ⊢
    rcases Bool.eq_false_or_eq_true (i == k) with hb | hb
    · simp only [hb] at h
      exact Option.noConfusion h
    · simp only [hb] at h ⊢
      exact ih h

/-- C5: on a not-finished tracker and an index not already marked emitted,
the call returns "emit" exactly when the step counter (after the optional
advance of this call) has reached the end step; when it has and the
tracked-quantity name list has not been loaded yet, it is loaded from the
manifest lines; an already-loaded list is kept unchanged. -/
theorem C5_threshold_emit (s : RecState) (manifest : List String) (i : Int) (f : Bool)
    (hend : s.endTrace = false) (hidx : s.idxDict.lookup i ≠ some true) :
    ((scheduler s manifest i f).1 = true ↔
      s.endStep ≤ s.stepCnt + (if f then 1 else 0)) ∧
    (s.endStep ≤ s.stepCnt + (if f then 1 else 0) → s.gradientNameList = none →
      (scheduler s manifest i f).2.gradientNameList = some (manifest.map pyDropLastChar)) ∧
    (∀ gl, s.gradientNameList = some gl →
      (scheduler s manifest i f).2.gradientNameList = some gl) := by
  cases hl : s.idxDict.lookup i with
  | some b =>
    cases b with
    | true => exact absurd hl hidx
    | false =>
      cases f with
      | false =>
        by_cases hth : s.endStep ≤ s.stepCnt
        · cases hgl : s.gradientNameList with
          | none => simp [scheduler, hend, hl, hth, hgl, apply_ite, ite_self]
          | some gl0 => simp [scheduler, hend, hl, hth, hgl, apply_ite, ite_self]
        · simp [scheduler, hend, hl, hth, apply_ite, ite_self]
      | true =>
        by_cases hth : s.endStep ≤ s.stepCnt + 1
        · cases hgl : s.gradientNameList with
          | none => simp [scheduler, hend, hl, hth, hgl, apply_ite, ite_self]
          | some gl0 => simp [scheduler, hend, hl, hth, hgl, apply_ite, ite_self]
        · simp [scheduler, hend, hl, hth, apply_ite, ite_self]
  | none =>
    have hreg := lookup_append_self s.idxDict i false hl
    cases f with
    | false =>
      by_cases hth : s.endStep ≤ s.stepCnt
      · cases hgl : s.gradientNameList with
        | none => simp [scheduler, hend, hl, hreg, hth, hgl, apply_ite, ite_self]
        | some gl0 => simp [scheduler, hend, hl, hreg, hth, hgl, apply_ite, ite_self]
      · simp [scheduler, hend, hl, hreg, hth, apply_ite, ite_self]
    | true =>
      by_cases hth : s.endStep ≤ s.stepCnt + 1
      · cases hgl : s.gradientNameList with
        | none => simp [scheduler, hend, hl, hreg, hth, hgl, apply_ite, ite_self]
        | some gl0 => simp [scheduler, hend, hl, hreg, hth, hgl, apply_ite, ite_self]
      · simp [scheduler, hend, hl, hreg, hth, apply_ite, ite_self]

/-- C5 witness: a not-finished tracker with counter 4 and end step 5 returns
"do not emit" without the advance flag, and with the flag set crosses the
threshold, returning "emit" and loading the manifest names. -/
theorem C5_threshold_emit_witness :
    ((scheduler ⟨false, 1, 5, 4, [(0, false)], none, false⟩ ["g0\n"] 0 false).1 = true ↔
      (5 : Int) ≤ 4 + (if false then 1 else 0)) ∧
    (scheduler ⟨false, 1, 5, 4, [(0, false)], none, false⟩ ["g0\n"] 0 true).2.gradientNameList =
      some (["g0\n"].map pyDropLastChar) :=
  ⟨(C5_threshold_emit ⟨false, 1, 5, 4, [(0, false)], none, false⟩ ["g0\n"] 0 false rfl
      (by decide)).1,
   (C5_threshold_emit ⟨false, 1, 5, 4, [(0, false)], none, false⟩ ["g0\n"] 0 true rfl
      (by decide)).2.1 (by decide) rfl⟩

/-- C10: a first-ever call for an index on a not-finished tracker whose step
counter has already reached the end step both registers the index as pending
(`false`) and returns "emit" in that same call, for either value of the
step-advance flag. -/
theorem C10_first_call_emits (s : RecState) (manifest : List String) (i : Int) (f : Bool)
    (hend : s.endTrace = false) (hnew : s.idxDict.lookup i = none)
    (hth : s.endStep ≤ s.stepCnt) :
    (scheduler s manifest i f).1 = true ∧
    (scheduler s manifest i f).2.idxDict.lookup i = some false := by
  have hreg := lookup_append_self s.idxDict i false hnew
  have hth1 : s.endStep ≤ s.stepCnt + 1 := by omega
  cases f with
  | false =>
    by_cases hpro : s.stepCnt = s.startStep - 1
    · have hth2 : s.endStep ≤ s.startStep - 1 := by omega
      cases hgl : s.gradientNameList <;>
        simp [scheduler, hend, hnew, hreg, hth, hth2, hpro, hgl]
    · cases hgl : s.gradientNameList <;>
        simp [scheduler, hend, hnew, hreg, hth, hpro, hgl]
  | true =>
    by_cases hpro : s.stepCnt + 1 = s.startStep - 1
    · have hth2 : s.endStep ≤ s.startStep - 1 := by omega
      cases hgl : s.gradientNameList <;>
        simp [scheduler, hend, hnew, hreg, hth1, hth2, hpro, hgl]
    · cases hgl : s.gradientNameList <;>
        simp [scheduler, hend, hnew, hreg, hth1, hpro, hgl]

/-- C10 witness: first call for index 7 at step 30 with end step 30. -/
theorem C10_first_call_emits_witness :
    (scheduler ⟨false, 20, 30, 30, [(0, false)], some ["g"], true⟩ [] 7 true).1 = true ∧
    (scheduler ⟨false, 20, 30, 30, [(0, false)], some ["g"], true⟩ [] 7 true).2.idxDict.lookup 7 =
      some false :=
  C10_first_call_emits ⟨false, 20, 30, 30, [(0, false)], some ["g"], true⟩ [] 7 true rfl
    (by decide) (by decide)

/-- C6: for a communication record whose argument name references tracked
index `i` resolving to name `pn`, when the communication-graph node
`Comm.<pn>` has exactly one predecessor it is attached as the single `input0`
argument; when the predecessor count differs from 1 the record processing
fails; and one failing record makes the whole merge fail rather than
silently picking a predecessor. -/
theorem C6_comm_unique_predecessor (dag : NxDiGraph) (gl : List String) (e : CommEvent)
    (h1 : pyContains e.argsName "byteps.gradient_" = true)
    (i : Int) (h2 : pyInt ((pySplit e.argsName "_").getLastD "") = some i)
    (pn : String) (h3 : pyListGet gl i = .ok pn) :
    (∀ u, (dag.inEdges ("Comm." ++ pn)).map (fun p => p.1) = [u] →
      collectCommEvent dag gl e = .ok (some { e with
        name := if e.name ≠ e.argsName then
            "Comm." ++ pn ++ "." ++ (pySplit e.name ".").getLastD ""
          else "Comm." ++ pn,
        pid := "Comm." ++ pn, argsName := "Comm." ++ pn, input0 := some u })) ∧
    (((dag.inEdges ("Comm." ++ pn)).map (fun p => p.1)).length ≠ 1 →
      (collectCommEvent dag gl e).isOk = false) ∧
    (∀ traces, e ∈ traces → (collectCommEvent dag gl e).isOk = false →
      (byteps_collect_comm dag gl traces).isOk = false) := by
  have h2n : pyInt ((pySplit e.argsName "_").getLast?.getD "") = some i := by
    simpa [List.getLastD_eq_getLast?] using h2
  refine ⟨?_, ?_, ?_⟩
  · intro u hu
    simp [collectCommEvent, h1, h2n, h3, hu]
  · intro hlen
    rcases hl : (dag.inEdges ("Comm." ++ pn)).map (fun p => p.1) with _ | ⟨u, _ | ⟨v, rest⟩⟩
    · simp [collectCommEvent, h1, h2n, h3, hl, Except.isOk, Except.toBool]
    · exact absurd (by rw [hl]; rfl) hlen
    · simp [collectCommEvent, h1, h2n, h3, hl, Except.isOk, Except.toBool]
  · intro traces hmem hfail
    induction traces with
    | nil => cases hmem
    | cons a rest ih =>
      rcases List.mem_cons.mp hmem with rfl | hmem2
      · simp only [byteps_collect_comm]
        cases hc : collectCommEvent dag gl e with
        | error msg => simp [Except.isOk, Except.toBool]
        | ok r =>
          rw [hc] at hfail
          simp [Except.isOk, Except.toBool] at hfail
      · simp only [byteps_collect_comm]
        cases hc : collectCommEvent dag gl a with
        | error msg => simp [Except.isOk, Except.toBool]
        | ok r =>
          have hin := ih hmem2
          cases hrest : byteps_collect_comm dag gl rest with
          | error msg => cases r <;> simp [Except.isOk, Except.toBool]
          | ok tl =>
            rw [hrest] at hin
            simp [Except.isOk, Except.toBool] at hin

/-- C6 witness: a record referencing tracked index 0 on a graph whose
`Comm.g0` node has the single predecessor `BW.x` is rewritten with
`input0 = BW.x`. -/
theorem C6_comm_unique_predecessor_witness :
    collectCommEvent ⟨["BW.x", "Comm.g0"], [("BW.x", "Comm.g0")], []⟩ ["g0"]
        ⟨"byteps.gradient_0", 1, 2, "X", "operator", "pidX", "byteps.gradient_0", none⟩ =
      .ok (some ⟨"Comm.g0", 1, 2, "X", "operator", "Comm.g0", "Comm.g0", some "BW.x"⟩) := by
  have h := (C6_comm_unique_predecessor ⟨["BW.x", "Comm.g0"], [("BW.x", "Comm.g0")], []⟩
      ["g0"] ⟨"byteps.gradient_0", 1, 2, "X", "operator", "pidX", "byteps.gradient_0", none⟩
      (by decide) 0 (by decide) "g0" (by decide)).1 "BW.x" (by decide)
  rw [h]
  decide

/-- If the predicate first holds at poll `k` within the budget, the wait loop
returns normally at that poll. -/
theorem waitGo_ok (ready : Nat → Bool) (name : String) :
    ∀ (d cnt k : Nat), cnt + d = 101 → k < d →
      (∀ j, j < k → ready (cnt + j) = false) → ready (cnt + k) = true →
      waitGo ready name d cnt = .ok (cnt + k) := by
  intro d
  induction d with
  | zero => intro cnt k _ hk; omega
  | succ d ih =>
    intro cnt k hsum hk hbefore hready
    simp only [waitGo]
    cases hr : ready cnt with
    | true =>
      have hk0 : k = 0 := by
        by_contra hne
        have := hbefore 0 (Nat.pos_of_ne_zero hne)
        rw [Nat.add_zero] at this
        rw [this] at hr
        cases hr
      subst hk0
      simp
    | false =>
      have hk0 : k ≠ 0 := by
        intro h0
        subst h0
        rw [Nat.add_zero] at hready
        rw [hready] at hr
        cases hr
      obtain ⟨k2, rfl⟩ := Nat.exists_eq_succ_of_ne_zero hk0
      have htc : timeoutCond (cnt + 1) = false := by
        simp only [timeoutCond, decide_eq_false_iff_not, Nat.not_lt]
        omega
      rw [htc]
      simp only [Bool.false_eq_true, if_false]
      have := ih (cnt + 1) k2 (by omega) (by omega)
        (fun j hj => by
          have := hbefore (j + 1) (by omega)
          simpa [Nat.add_assoc, Nat.add_comm 1 j] using this)
        (by simpa [Nat.add_assoc, Nat.add_comm 1 k2] using hready)
      rw [this]
      congr 1
      omega

/-- If the predicate never holds within the 101 polls of the budget, the loop
raises the timeout message for 10.1 seconds. -/
theorem waitGo_timeout (ready : Nat → Bool) (name : String) :
    ∀ (d cnt : Nat), cnt + d = 101 → (∀ k, k ≤ 100 → ready k = false) →
      waitGo ready name d cnt = .error (timeoutMsg name 101) := by
  intro d
  induction d with
  | zero =>
    intro cnt hsum _
    have : cnt = 101 := by omega
    subst this
    rfl
  | succ d ih =>
    intro cnt hsum hall
    simp only [waitGo]
    rw [hall cnt (by omega)]
    simp only [Bool.false_eq_true, if_false]
    by_cases htc : timeoutCond (cnt + 1) = true
    · rw [if_pos htc]
      have : cnt + 1 = 101 := by
        simp only [timeoutCond, decide_eq_true_eq] at htc
        omega
      rw [this]
    · rw [if_neg htc]
      exact ih (cnt + 1) (by omega) hall

/-- C9: `wait_for_trace` polls the predicate once per 0.1 s sleep; it returns
normally at the first successful poll, and when the predicate fails for all
101 polls within the 10 s budget it raises the timeout `ValueError` whose
message names the waited-for stream label (10.1 s elapsed). -/
theorem C9_wait_timeout (ready : Nat → Bool) (name : String) :
    (∀ k, k ≤ 100 → (∀ j, j < k → ready j = false) → ready k = true →
      wait_for_trace ready name = .ok k) ∧
    ((∀ k, k ≤ 100 → ready k = false) →
      wait_for_trace ready name =
        .error ("Waiting Time Out, wait " ++ name ++ " traces for " ++ tenthsStr 101 ++ " s")) := by
  constructor
  · intro k hk hbefore hready
    have := waitGo_ok ready name 101 0 k (by omega) (by omega)
      (fun j hj => by simpa using hbefore j hj) (by simpa using hready)
    simpa [wait_for_trace] using this
  · intro hall
    exact waitGo_timeout ready name 101 0 (by omega) hall

/-- C9 witness: a predicate first true at the fourth poll returns normally;
a predicate that never becomes true raises the timeout error naming the
`Comm` stream. -/
theorem C9_wait_timeout_witness :
    wait_for_trace (fun k => k == 3) "Comm" = .ok 3 ∧
    wait_for_trace (fun _ => false) "Comm" =
      .error ("Waiting Time Out, wait " ++ "Comm" ++ " traces for " ++ tenthsStr 101 ++ " s") :=
  ⟨(C9_wait_timeout (fun k => k == 3) "Comm").1 3 (by omega) (by decide) (by decide),
   (C9_wait_timeout (fun _ => false) "Comm").2 (fun k _ => rfl)⟩

/-- Appending to the forward prefix is injective. -/
theorem fw_inj (x y : String) : ("FW." ++ x = "FW." ++ y) ↔ x = y := by
  constructor
  · intro h
    have h2 : 'F' :: 'W' :: '.' :: x.data = 'F' :: 'W' :: '.' :: y.data :=
      congrArg String.data h
    simp only [List.cons.injEq, true_and] at h2
    cases x
    cases y
    exact congrArg String.mk h2
  · intro h
    rw [h]

/-- Appending to the backward prefix is injective. -/
theorem bw_inj (x y : String) : ("BW." ++ x = "BW." ++ y) ↔ x = y := by
  constructor
  · intro h
    have h2 : 'B' :: 'W' :: '.' :: x.data = 'B' :: 'W' :: '.' :: y.data :=
      congrArg String.data h
    simp only [List.cons.injEq, true_and] at h2
    cases x
    cases y
    exact congrArg String.mk h2
  · intro h
    rw [h]

/-- A forward node id is never a backward node id. -/
theorem fw_ne_bw (x y : String) : "FW." ++ x ≠ "BW." ++ y := by
  intro h
  have h2 : 'F' :: 'W' :: '.' :: x.data = 'B' :: 'W' :: '.' :: y.data :=
    congrArg String.data h
  simp at h2

/-- A backward node id is never a forward node id. -/
theorem bw_ne_fw (x y : String) : "BW." ++ x ≠ "FW." ++ y := by
  intro h
  have h2 : 'B' :: 'W' :: '.' :: x.data = 'F' :: 'W' :: '.' :: y.data :=
    congrArg String.data h
  simp at h2

theorem notFWBW_step : NotFWBW "STEP" := by
  intro x
  constructor <;> intro h <;>
    first
    | (have h2 : ('S' :: 'T' :: 'E' :: 'P' :: [] : List Char) = 'F' :: 'W' :: '.' :: x.data :=
        congrArg String.data h
       simp at h2)
    | (have h2 : ('S' :: 'T' :: 'E' :: 'P' :: [] : List Char) = 'B' :: 'W' :: '.' :: x.data :=
        congrArg String.data h
       simp at h2)

theorem notFWBW_io : NotFWBW "I/O" := by
  intro x
  constructor <;> intro h <;>
    first
    | (have h2 : ('I' :: '/' :: 'O' :: [] : List Char) = 'F' :: 'W' :: '.' :: x.data :=
        congrArg String.data h
       simp at h2)
    | (have h2 : ('I' :: '/' :: 'O' :: [] : List Char) = 'B' :: 'W' :: '.' :: x.data :=
        congrArg String.data h
       simp at h2)

theorem notFWBW_output (r : String) : NotFWBW ("OUTPUT" ++ r) := by
  intro x
  constructor <;> intro h <;>
    first
    | (have h2 : 'O' :: 'U' :: 'T' :: 'P' :: 'U' :: 'T' :: r.data = 'F' :: 'W' :: '.' :: x.data :=
        congrArg String.data h
       simp at h2)
    | (have h2 : 'O' :: 'U' :: 'T' :: 'P' :: 'U' :: 'T' :: r.data = 'B' :: 'W' :: '.' :: x.data :=
        congrArg String.data h
       simp at h2)

theorem notFWBW_comm (r : String) : NotFWBW ("Comm." ++ r) := by
  intro x
  constructor <;> intro h <;>
    first
    | (have h2 : 'C' :: 'o' :: 'm' :: 'm' :: '.' :: r.data = 'F' :: 'W' :: '.' :: x.data :=
        congrArg String.data h
       simp at h2)
    | (have h2 : 'C' :: 'o' :: 'm' :: 'm' :: '.' :: r.data = 'B' :: 'W' :: '.' :: x.data :=
        congrArg String.data h
       simp at h2)

/-- Node membership after implicit node registration. -/
theorem mem_addNodeName (g : NxDiGraph) (n m : String) :
    m ∈ (g.addNodeName n).nodes ↔ m ∈ g.nodes ∨ m = n := by
  unfold NxDiGraph.addNodeName
  by_cases h : n ∈ g.nodes
  · rw [if_pos h]
    constructor
    · exact Or.inl
    · rintro (hm | rfl)
      · exact hm
      · exact h
  · rw [if_neg h]
    simp

/-- Node membership after `add_node`. -/
theorem mem_addNode (g : NxDiGraph) (n op m : String) :
    m ∈ (g.addNode n op).nodes ↔ m ∈ g.nodes ∨ m = n := by
  unfold NxDiGraph.addNode
  exact mem_addNodeName g n m

/-- Node membership after `add_edge`. -/
theorem mem_addEdge (g : NxDiGraph) (u v m : String) :
    m ∈ (g.addEdge u v).nodes ↔ m ∈ g.nodes ∨ m = u ∨ m = v := by
  unfold NxDiGraph.addEdge
  dsimp only
  split
  · rw [mem_addNodeName, mem_addNodeName, or_assoc]
  · show m ∈ ((g.addNodeName u).addNodeName v).nodes ↔ _
    rw [mem_addNodeName, mem_addNodeName, or_assoc]

/-- `add_edge` keeps existing nodes. -/
theorem mem_addEdge_mono (g : NxDiGraph) (u v m : String) (h : m ∈ g.nodes) :
    m ∈ (g.addEdge u v).nodes :=
  (mem_addEdge g u v m).mpr (Or.inl h)

/-- Adding an edge preserves the symmetry invariant when each endpoint that is
a forward or backward id already has its counterpart registered. -/
theorem symm_addEdge_absorb (g : NxDiGraph) (u v : String) (hs : FWBWSymm g)
    (hu : ∀ x, (u = "FW." ++ x → "BW." ++ x ∈ g.nodes) ∧
               (u = "BW." ++ x → "FW." ++ x ∈ g.nodes))
    (hv : ∀ x, (v = "FW." ++ x → "BW." ++ x ∈ g.nodes) ∧
               (v = "BW." ++ x → "FW." ++ x ∈ g.nodes)) :
    FWBWSymm (g.addEdge u v) := by
  intro x
  rw [mem_addEdge, mem_addEdge]
  constructor
  · rintro (h | h | h)
    · exact Or.inl ((hs x).mp h)
    · exact Or.inl ((hu x).1 h.symm)
    · exact Or.inl ((hv x).1 h.symm)
  · rintro (h | h | h)
    · exact Or.inl ((hs x).mpr h)
    · exact Or.inl ((hu x).2 h.symm)
    · exact Or.inl ((hv x).2 h.symm)

/-- A node id that is neither forward nor backward satisfies the absorption
condition vacuously. -/
theorem absorb_of_not (u : String) (g : NxDiGraph) (h : NotFWBW u) :
    ∀ x, (u = "FW." ++ x → "BW." ++ x ∈ g.nodes) ∧
         (u = "BW." ++ x → "FW." ++ x ∈ g.nodes) :=
  fun x => ⟨fun he => absurd he (h x).1, fun he => absurd he (h x).2⟩

/-- A forward id whose backward counterpart is already registered satisfies
the absorption condition. -/
theorem absorb_fw (n : String) (g : NxDiGraph) (hbw : "BW." ++ n ∈ g.nodes) :
    ∀ x, ("FW." ++ n = "FW." ++ x → "BW." ++ x ∈ g.nodes) ∧
         ("FW." ++ n = "BW." ++ x → "FW." ++ x ∈ g.nodes) :=
  fun x => ⟨fun he => (fw_inj n x).mp he ▸ hbw, fun he => absurd he (fw_ne_bw n x)⟩

/-- A backward id whose forward counterpart is already registered satisfies
the absorption condition. -/
theorem absorb_bw (n : String) (g : NxDiGraph) (hfw : "FW." ++ n ∈ g.nodes) :
    ∀ x, ("BW." ++ n = "FW." ++ x → "BW." ++ x ∈ g.nodes) ∧
         ("BW." ++ n = "BW." ++ x → "FW." ++ x ∈ g.nodes) :=
  fun x => ⟨fun he => absurd he (bw_ne_fw n x), fun he => (bw_inj n x).mp he ▸ hfw⟩

/-- Adding the mirrored pair of producer edges preserves symmetry. -/
theorem symm_add_pair (g : NxDiGraph) (a b : String) (hs : FWBWSymm g) :
    FWBWSymm ((g.addEdge ("FW." ++ a) ("FW." ++ b)).addEdge ("BW." ++ b) ("BW." ++ a)) := by
  intro x
  rw [mem_addEdge, mem_addEdge, mem_addEdge, mem_addEdge]
  constructor
  · rintro ((h | h | h) | h | h)
    · exact Or.inl (Or.inl ((hs x).mp h))
    · exact Or.inr (Or.inr (by rw [(fw_inj x a).mp h]))
    · exact Or.inr (Or.inl (by rw [(fw_inj x b).mp h]))
    · exact absurd h (fw_ne_bw x b)
    · exact absurd h (fw_ne_bw x a)
  · rintro ((h | h | h) | h | h)
    · exact Or.inl (Or.inl ((hs x).mpr h))
    · exact absurd h (bw_ne_fw x a)
    · exact absurd h (bw_ne_fw x b)
    · exact Or.inl (Or.inr (Or.inr (by rw [(bw_inj x b).mp h])))
    · exact Or.inl (Or.inr (Or.inl (by rw [(bw_inj x a).mp h])))

/-- Registering the forward/backward node pair of an operator preserves
symmetry. -/
theorem symm_addNode_pair (g : NxDiGraph) (n op : String) (hs : FWBWSymm g) :
    FWBWSymm ((g.addNode ("FW." ++ n) op).addNode ("BW." ++ n) op) := by
  intro x
  rw [mem_addNode, mem_addNode, mem_addNode, mem_addNode]
  constructor
  · rintro ((h | h) | h)
    · exact Or.inl (Or.inl ((hs x).mp h))
    · exact Or.inr (by rw [(fw_inj x n).mp h])
    · exact absurd h (fw_ne_bw x n)
  · rintro ((h | h) | h)
    · exact Or.inl (Or.inl ((hs x).mpr h))
    · exact absurd h (bw_ne_fw x n)
    · exact Or.inl (Or.inr (by rw [(bw_inj x n).mp h]))

/-- Linking a declared output through its `OUTPUT` marker preserves
symmetry. -/
theorem symm_add_output (g : NxDiGraph) (o r : String) (hs : FWBWSymm g) :
    FWBWSymm ((g.addEdge ("FW." ++ o) ("OUTPUT" ++ r)).addEdge
      ("OUTPUT" ++ r) ("BW." ++ o)) := by
  intro x
  rw [mem_addEdge, mem_addEdge, mem_addEdge, mem_addEdge]
  constructor
  · rintro ((h | h | h) | h | h)
    · exact Or.inl (Or.inl ((hs x).mp h))
    · exact Or.inr (Or.inr (by rw [(fw_inj x o).mp h]))
    · exact absurd h.symm ((notFWBW_output r x).1)
    · exact absurd h.symm ((notFWBW_output r x).1)
    · exact absurd h (fw_ne_bw x o)
  · rintro ((h | h | h) | h | h)
    · exact Or.inl (Or.inl ((hs x).mpr h))
    · exact absurd h (bw_ne_fw x o)
    · exact absurd h.symm ((notFWBW_output r x).2)
    · exact absurd h.symm ((notFWBW_output r x).2)
    · exact Or.inl (Or.inr (Or.inl (by rw [(bw_inj x o).mp h])))

/-- One argument step preserves symmetry and the operator node pair. -/
theorem symm_argStep (name a : String) (g : NxDiGraph) (hs : FWBWSymm g)
    (hf : "FW." ++ name ∈ g.nodes) (hb : "BW." ++ name ∈ g.nodes) :
    FWBWSymm (argStep name g a) ∧ "FW." ++ name ∈ (argStep name g a).nodes ∧
      "BW." ++ name ∈ (argStep name g a).nodes := by
  unfold argStep
  dsimp only
  exact ⟨symm_add_pair g _ name hs,
    mem_addEdge_mono _ _ _ _ (mem_addEdge_mono _ _ _ _ hf),
    mem_addEdge_mono _ _ _ _ (mem_addEdge_mono _ _ _ _ hb)⟩

/-- One free-variable step preserves symmetry and the operator node pair. -/
theorem symm_varStep (isMain : Bool) (name v : String) (g : NxDiGraph) (hs : FWBWSymm g)
    (hf : "FW." ++ name ∈ g.nodes) (hb : "BW." ++ name ∈ g.nodes) :
    FWBWSymm (varStep isMain name g v) ∧ "FW." ++ name ∈ (varStep isMain name g v).nodes ∧
      "BW." ++ name ∈ (varStep isMain name g v).nodes := by
  unfold varStep
  by_cases hd : pyContains v "data" = true
  · rw [if_pos hd]
    dsimp only
    have hs1 : FWBWSymm (g.addEdge "I/O" ("FW." ++ name)) :=
      symm_addEdge_absorb g _ _ hs (absorb_of_not _ _ notFWBW_io) (absorb_fw name g hb)
    have hf1 := mem_addEdge_mono g "I/O" ("FW." ++ name) _ hf
    have hb1 := mem_addEdge_mono g "I/O" ("FW." ++ name) _ hb
    by_cases hm : isMain = true
    · rw [if_pos hm]
      have hs2 : FWBWSymm ((g.addEdge "I/O" ("FW." ++ name)).addEdge ("BW." ++ name) "STEP") :=
        symm_addEdge_absorb _ _ _ hs1 (absorb_bw name _ hf1) (absorb_of_not _ _ notFWBW_step)
      have hf2 := mem_addEdge_mono _ ("BW." ++ name) "STEP" _ hf1
      have hb2 := mem_addEdge_mono _ ("BW." ++ name) "STEP" _ hb1
      exact ⟨symm_addEdge_absorb _ _ _ hs2 (absorb_of_not _ _ notFWBW_step)
          (absorb_fw name _ hb2),
        mem_addEdge_mono _ _ _ _ hf2, mem_addEdge_mono _ _ _ _ hb2⟩
    · rw [if_neg hm]
      exact ⟨hs1, hf1, hb1⟩
  · rw [if_neg hd]
    have hs1 : FWBWSymm (g.addEdge ("Comm." ++ v) "STEP") :=
      symm_addEdge_absorb g _ _ hs (absorb_of_not _ _ (notFWBW_comm v))
        (absorb_of_not _ _ notFWBW_step)
    have hf1 := mem_addEdge_mono g ("Comm." ++ v) "STEP" _ hf
    have hb1 := mem_addEdge_mono g ("Comm." ++ v) "STEP" _ hb
    exact ⟨symm_addEdge_absorb _ _ _ hs1 (absorb_bw name _ hf1)
        (absorb_of_not _ _ (notFWBW_comm v)),
      mem_addEdge_mono _ _ _ _ hf1, mem_addEdge_mono _ _ _ _ hb1⟩

/-- The argument fold preserves symmetry and the operator node pair. -/
theorem symm_args_foldl (name : String) :
    ∀ (args : List String) (g : NxDiGraph), FWBWSymm g →
      "FW." ++ name ∈ g.nodes → "BW." ++ name ∈ g.nodes →
      FWBWSymm (args.foldl (argStep name) g) ∧
      "FW." ++ name ∈ (args.foldl (argStep name) g).nodes ∧
      "BW." ++ name ∈ (args.foldl (argStep name) g).nodes := by
  intro args
  induction args with
  | nil => intro g hs hf hb; exact ⟨hs, hf, hb⟩
  | cons a rest ih =>
    intro g hs hf hb
    simp only [List.foldl_cons]
    obtain ⟨hs2, hf2, hb2⟩ := symm_argStep name a g hs hf hb
    exact ih _ hs2 hf2 hb2

/-- The free-variable fold preserves symmetry. -/
theorem symm_vars_foldl (isMain : Bool) (name : String) :
    ∀ (var : List String) (g : NxDiGraph), FWBWSymm g →
      "FW." ++ name ∈ g.nodes → "BW." ++ name ∈ g.nodes →
      FWBWSymm (var.foldl (varStep isMain name) g) := by
  intro var
  induction var with
  | nil => intro g hs _ _; exact hs
  | cons v rest ih =>
    intro g hs hf hb
    simp only [List.foldl_cons]
    obtain ⟨hs2, hf2, hb2⟩ := symm_varStep isMain name v g hs hf hb
    exact ih _ hs2 hf2 hb2

/-- The output-scan of the first block preserves symmetry. -/
theorem symm_scanOutputs :
    ∀ (ls : List String) (g : NxDiGraph) (cnt : Nat) (g2 : NxDiGraph),
      FWBWSymm g → scanOutputs g cnt ls = .ok g2 → FWBWSymm g2 := by
  intro ls
  induction ls with
  | nil =>
    intro g cnt g2 hs h
    injection h with h2
    exact h2 ▸ hs
  | cons l rest ih =>
    intro g cnt g2 hs h
    simp only [scanOutputs] at h
    split at h
    · injection h with h2
      exact h2 ▸ hs
    · split at h
      · split at h
        · exact Except.noConfusion h
        · exact ih _ _ _ (symm_add_output g _ _ hs) h
      · exact ih _ _ _ hs h

/-- One operator block preserves symmetry. -/
theorem symm_processBlock (isMain : Bool) (g : NxDiGraph) (prev b : String)
    (g2 : NxDiGraph) (hs : FWBWSymm g) (h : processBlock isMain g prev b = .ok g2) :
    FWBWSymm g2 := by
  unfold processBlock at h
  split at h
  next => exact Except.noConfusion h
  next var hvar =>
    dsimp only at h
    split at h
    next =>
      injection h with h2
      exact h2 ▸ hs
    next =>
      split at h
      next => exact Except.noConfusion h
      next name0 hname0 =>
        split at h
        next => exact Except.noConfusion h
        next op hop =>
          split at h
          next => exact Except.noConfusion h
          next args hargs =>
            injection h with h2
            rw [← h2]
            set nm := (if pyContains name0 "_fwd" then (pySplit name0 "_fwd").headD "" else name0) with hnm
            have hbase := symm_addNode_pair g nm op hs
            have hfb : "FW." ++ nm ∈ ((g.addNode ("FW." ++ nm) op).addNode ("BW." ++ nm) op).nodes := by
              rw [mem_addNode, mem_addNode]
              exact Or.inl (Or.inr rfl)
            have hbb : "BW." ++ nm ∈ ((g.addNode ("FW." ++ nm) op).addNode ("BW." ++ nm) op).nodes := by
              rw [mem_addNode]
              exact Or.inr rfl
            obtain ⟨hsA, hfA, hbA⟩ := symm_args_foldl nm args _ hbase hfb hbb
            exact symm_vars_foldl isMain nm var _ hsA hfA hbA

/-- The block loop preserves symmetry. -/
theorem symm_genDagBlocks (isMain : Bool) :
    ∀ (blocks : List String) (g : NxDiGraph) (prev : String) (g2 : NxDiGraph),
      FWBWSymm g → genDagBlocks isMain g prev blocks = .ok g2 → FWBWSymm g2 := by
  intro blocks
  induction blocks with
  | nil =>
    intro g prev g2 hs h
    injection h with h2
    exact h2 ▸ hs
  | cons b rest ih =>
    intro g prev g2 hs h
    simp only [genDagBlocks] at h
    split at h
    · exact Except.noConfusion h
    · rename_i gm hgm
      exact ih gm b g2 (symm_processBlock isMain g prev b gm hs hgm) h

/-- C8 (amended): every dependency graph produced by `gen_dag` alone (main or
loss sub-graph) satisfies the forward/backward symmetry invariant. -/
theorem C8_gen_dag_symmetry (s : String) (isMain : Bool) (g : NxDiGraph)
    (h : gen_dag s isMain = .ok g) : FWBWSymm g := by
  unfold gen_dag at h
  dsimp only at h
  split at h
  · exact Except.noConfusion h
  · rename_i g1 hg1
    have hempty : FWBWSymm NxDiGraph.empty := by
      intro x
      simp [NxDiGraph.empty]
    exact symm_genDagBlocks isMain _ g1 _ g
      (symm_scanOutputs _ NxDiGraph.empty 0 g1 hempty hg1) h

/-- C8 counterexample: splicing the loss sub-graph of `lossDumpM` (whose dead
operator `M` carries the non-data free variable `w`) into the main graph of
`dumpAB` copies the edge `BW.M -> Comm.w` verbatim, producing a combined
graph that contains the node `BW.M` but no corresponding `FW.M`. -/
theorem C8_counterexample :
    gen_dag dumpAB true = .ok dagAB ∧
    gen_dag lossDumpM false = .ok lossDagM ∧
    (combine_loss_dag dagAB [some lossDagM]).map
      (fun gc => (gc.hasNode "BW.M", gc.hasNode "FW.M")) = .ok (true, false) := by
  refine ⟨by decide, by decide, by decide⟩

/-- C8 witness: the symmetry theorem applied to the main graph built from
`dumpAB`, instantiated at operator `A`. -/
theorem C8_gen_dag_symmetry_witness :
    gen_dag dumpAB true = .ok dagAB ∧
    (("FW." ++ "A") ∈ dagAB.nodes ↔ ("BW." ++ "A") ∈ dagAB.nodes) :=
  ⟨by decide, C8_gen_dag_symmetry dumpAB true dagAB (by decide) "A"⟩
